import Mathlib

/-!
Verification of the FinRAG retrieval-pipeline orchestrator
(`financerag/tasks/BaseTask.py`).

The development shallowly embeds the orchestration logic of `BaseTask`:
the hybrid fusion retrieval (`hybrid_retrieve_rerank`), the score-column
normalisation (`_rename_score_column`), the memoised keyword expansion
(`keyword_extraction_expansion`, an `lru_cache(maxsize=1000)` decorator),
the `generate()` input-resolution logic, and the ranking evaluation
(`evaluate`).

Modelling conventions:
* float64 scores are modelled as `Rat`; relevance grades as `Int`.
* Python `dict`s are association lists in insertion order; assignment to
  an existing key updates the value in place (`pyDictInsert`).
* pandas `DataFrame`s are modelled by `DF`: the three score-like columns
  the pipeline manipulates (`_score`, `_relevance_score`, `score`) are
  tracked by presence flags plus an optional cell per row (`none` = NaN);
  `otherNa` records a NaN in any of the remaining columns.  `concat`
  takes the union of the columns and NaN-fills the missing cells, which
  is what `pandas.concat` does; `dropna` removes any row with a NaN in a
  present column; `sort_values(by='score')` raises `KeyError` when the
  frame has no `score` column.  pandas' default (unstable) quicksort is
  modelled by a fixed insertion sort; nothing proved depends on the
  order of equal keys.
* external collaborators (the lancedb search+rerank chains, the OpenAI
  keyword model, pytrec_eval) are parameters: functions supplied to the
  embedded code, returning `Option`/values; `none` models a raised
  exception.
* Python exceptions are the `PyErr` type; an uncaught exception is an
  `Except.error`.
-/

namespace FinRAG

/-- Python exception kinds that the embedded code can raise. -/
inductive PyErr where
  | valueError
  | keyError
  | assertionError
  | zeroDivisionError
  | apiError
deriving DecidableEq

instance {ε α : Type} [DecidableEq ε] [DecidableEq α] : DecidableEq (Except ε α) :=
  fun x y =>
    match x, y with
    | .ok a, .ok b => decidable_of_iff (a = b) (by simp)
    | .error a, .error b => decidable_of_iff (a = b) (by simp)
    | .ok _, .error _ => .isFalse (by simp)
    | .error _, .ok _ => .isFalse (by simp)

/-- One row of a search-result DataFrame.  `us`, `ur`, `s` are the cells
of the `_score`, `_relevance_score` and `score` columns (`none` = NaN or
column absent); `otherNa` is true when some other column holds a NaN. -/
structure Row where
  doc_id : String
  us : Option Rat
  ur : Option Rat
  s : Option Rat
  otherNa : Bool
deriving DecidableEq

/-- A search-result DataFrame restricted to what the pipeline reads:
which of the three score-like columns are present, plus the rows. -/
structure DF where
  hasUs : Bool
  hasUr : Bool
  hasS : Bool
  rows : List Row
deriving DecidableEq

/-- `pandas.DataFrame()` — the default value of `retrieved_docs_1`. -/
def emptyDF : DF := ⟨false, false, false, []⟩

/-- `BaseTask._rename_score_column(df, "score")` (lines 201-211): no-op
when a `score` column already exists or the frame is empty; otherwise
renames `_score`, else `_relevance_score`, to `score`; raises
`ValueError` when no score column is found. -/
def rename_score_column (df : DF) : Except PyErr (DF × Bool) :=
  if df.hasS || df.rows.length == 0 then .ok (df, false)
  else if df.hasUs then
    .ok ({ df with
            hasUs := false
            hasS := true
            rows := df.rows.map fun r => { r with s := r.us, us := none } }, true)
  else if df.hasUr then
    .ok ({ df with
            hasUr := false
            hasS := true
            rows := df.rows.map fun r => { r with s := r.ur, ur := none } }, true)
  else .error .valueError

/-- NaN-fill the cells of columns absent from a row's source frame;
used when `pandas.concat` unions the columns of two frames. -/
def maskRow (hUs hUr hS : Bool) (r : Row) : Row :=
  { r with us := if hUs then r.us else none,
           ur := if hUr then r.ur else none,
           s := if hS then r.s else none }

/-- `pandas.concat([d1, d2], ignore_index=True)`: union of columns,
missing cells NaN. -/
def concatDF (d1 d2 : DF) : DF :=
  { hasUs := d1.hasUs || d2.hasUs
    hasUr := d1.hasUr || d2.hasUr
    hasS := d1.hasS || d2.hasS
    rows := d1.rows.map (maskRow d1.hasUs d1.hasUr d1.hasS)
      ++ d2.rows.map (maskRow d2.hasUs d2.hasUr d2.hasS) }

/-- `drop_duplicates(subset=['doc_id'], keep='first')`: keep the first
occurrence of each document id. -/
def dropDupAux (seen : List String) : List Row → List Row
  | [] => []
  | r :: rs =>
    if seen.contains r.doc_id then dropDupAux seen rs
    else r :: dropDupAux (r.doc_id :: seen) rs

def drop_duplicates_doc_id (df : DF) : DF :=
  { df with rows := dropDupAux [] df.rows }

/-- A row survives `dropna()`: no NaN in any present column. -/
def naKeep (df : DF) (r : Row) : Bool :=
  (!df.hasUs || r.us.isSome) && (!df.hasUr || r.ur.isSome)
    && (!df.hasS || r.s.isSome) && !r.otherNa

def dropna (df : DF) : DF := { df with rows := df.rows.filter (naKeep df) }

/-- The value of the canonical `score` column used as the sort key. -/
def scoreKey (r : Row) : Rat := r.s.getD 0

/-- Descending order on rows by canonical score. -/
def rowGE (a b : Row) : Prop := scoreKey b ≤ scoreKey a

instance : DecidableRel rowGE := fun a b =>
  (inferInstance : Decidable (scoreKey b ≤ scoreKey a))

instance : IsTotal Row rowGE := ⟨fun a b => le_total (scoreKey b) (scoreKey a)⟩

instance : IsTrans Row rowGE := ⟨fun _ _ _ hab hbc => le_trans hbc hab⟩

/-- `sort_values(by='score', ascending=False)`: raises `KeyError` when
the frame has no `score` column (this happens in the source whenever an
empty frame skipped the rename), otherwise sorts descending. -/
def sort_values_score (df : DF) : Except PyErr DF :=
  if df.hasS then .ok { df with rows := List.insertionSort rowGE df.rows }
  else .error .keyError

/-- Assignment `m[k] = v` on a Python dict rendered as an insertion-order
association list: an existing key keeps its position, a new key is
appended. -/
def pyDictInsert (m : List (String × Rat)) (k : String) (v : Rat) :
    List (String × Rat) :=
  if m.any (fun p => p.1 == k) then
    m.map (fun p => if p.1 == k then (p.1, v) else p)
  else m ++ [(k, v)]

/-- `{doc_id: score for doc_id, score in zip(df['doc_id'], df['score'])}`. -/
def toPyDict (rows : List Row) : List (String × Rat) :=
  rows.foldl (fun m r => pyDictInsert m r.doc_id (scoreKey r)) []

/-- Lines 269-271: `if not retrieved_docs_1.empty`, concatenate the
lexical frame first and drop duplicate document ids keeping the first
occurrence. -/
def fusedFrame (r1 dense : DF) : DF :=
  if r1.rows.isEmpty then dense
  else drop_duplicates_doc_id (concatDF r1 dense)

/-- Lines 269-278 of `hybrid_retrieve_rerank`: fuse the lexical frame
`r1` with the dense frame, deduplicate, `dropna`, rename the score
column, sort descending and build the per-query result dict. -/
def finalizeQuery (r1 dense : DF) : Except PyErr (List (String × Rat)) :=
  let cleaned := dropna (fusedFrame r1 dense)
  match rename_score_column cleaned with
  | .error e => .error e
  | .ok (df2, _) =>
    match sort_values_score df2 with
    | .error e => .error e
    | .ok df3 => .ok (toPyDict df3.rows)

/-- The state of the `functools.lru_cache(maxsize=1000)` on
`keyword_extraction_expansion`: most-recently-used first. -/
structure KwCache where
  entries : List ((String × Int) × List String)
deriving DecidableEq

def lru_maxsize : Nat := 1000

def cacheLookup (c : KwCache) (key : String × Int) : Option (List String) :=
  (c.entries.find? (fun e => decide (e.1 = key))).map Prod.snd

/-- On a hit, `lru_cache` moves the entry to the most-recent position. -/
def cachePromote (c : KwCache) (key : String × Int) : KwCache :=
  match c.entries.find? (fun e => decide (e.1 = key)) with
  | none => c
  | some e => ⟨e :: c.entries.filter (fun e2 => !decide (e2.1 = key))⟩

/-- Python `response.split(', ')`, structurally recursive so that it
reduces in the kernel. -/
def splitCSAux : List Char → List Char → List String
  | acc, ',' :: ' ' :: rest => String.mk acc.reverse :: splitCSAux [] rest
  | acc, c :: rest => splitCSAux (c :: acc) rest
  | acc, [] => [String.mk acc.reverse]

def pySplitCommaSpace (s : String) : List String := splitCSAux [] s.toList

/-- Python `'; '.join(keywords)`. -/
def joinSemicolon : List String → String
  | [] => ""
  | [s] => s
  | s :: rest => s ++ "; " ++ joinSemicolon rest

/-- `BaseTask.keyword_extraction_expansion` (lines 184-199) together
with its `lru_cache(maxsize=1000)` decorator.  `llm` is the OpenAI
collaborator returning the raw comma-separated response (`none` models a
raised exception; exceptions are not cached).  Returns the keyword list
(or error), the new cache state, and whether the collaborator was
invoked. -/
def keyword_extraction_expansion (llm : String → Option String)
    (cache : KwCache) (query : String) (top_k : Int) :
    Except PyErr (List String) × KwCache × Bool :=
  match cacheLookup cache (query, top_k) with
  | some v => (.ok v, cachePromote cache (query, top_k), false)
  | none =>
    match llm query with
    | none => (.error .apiError, cache, true)
    | some resp =>
      let v := pySplitCommaSpace resp
      (.ok v, ⟨(((query, top_k), v) :: cache.entries).take lru_maxsize⟩, true)

/-- The external search collaborators of `hybrid_retrieve_rerank`: each
of the three `search(...).rerank(...).limit(top_k).to_pandas()` chains
is a function of the query string and `top_k` returning a frame, `none`
modelling a raised exception; `kw` is the OpenAI keyword model. -/
structure Collab where
  kw : String → Option String
  fts : String → Int → Option DF
  hybrid : String → Int → Option DF
  vector : String → Int → Option DF

/-- Step 1 of `hybrid_retrieve_rerank` (lines 226-242): the full-text
stage.  Any exception (keyword expansion, search, or the rename's
`ValueError`) is caught and leaves `retrieved_docs_1` at whatever it
held — the default empty frame, or, when only the rename raised, the
already-assigned un-renamed frame.  Returns the frame, the new keyword
cache and the number of collaborator invocations. -/
def ftsStage (c : Collab) (cache : KwCache) (top_k : Int) (query : String) :
    DF × KwCache × Nat :=
  match keyword_extraction_expansion c.kw cache query 100 with
  | (.error _, cache2, _) => (emptyDF, cache2, 1)
  | (.ok kws, cache2, called) =>
    let n := if called then 1 else 0
    match c.fts (joinSemicolon kws) top_k with
    | none => (emptyDF, cache2, n + 1)
    | some df =>
      match rename_score_column df with
      | .error _ => (df, cache2, n + 1)
      | .ok (df2, _) => (df2, cache2, n + 1)

/-- The body of the per-query loop of `hybrid_retrieve_rerank` (lines
226-279): FTS stage, hybrid search with vector fallback (both failing
yields an empty result dict for the query), then fusion/finalisation. -/
def processQuery (c : Collab) (cache : KwCache) (top_k : Int)
    (query : String) :
    Except PyErr (List (String × Rat)) × KwCache × Nat :=
  match ftsStage c cache top_k query with
  | (r1, cache2, n1) =>
    match c.hybrid query top_k with
    | some df => (finalizeQuery r1 df, cache2, n1 + 1)
    | none =>
      match c.vector query top_k with
      | some df => (finalizeQuery r1 df, cache2, n1 + 2)
      | none => (.ok [], cache2, n1 + 2)

/-- Line 223: `if query_ids and q_id not in query_ids: continue` —
note the Python truthiness: an *empty* `query_ids` never skips. -/
def skipQuery (query_ids : Option (List String)) (q_id : String) : Bool :=
  match query_ids with
  | none => false
  | some l => !l.isEmpty && !l.contains q_id

/-- `BaseTask.hybrid_retrieve_rerank` (lines 213-281) over the loaded
queries (an id → text association list in dict order).  Returns the
batch results (or the uncaught exception that aborted the loop), the
final keyword-cache state, and the total number of collaborator
invocations. -/
def hybrid_retrieve_rerank (c : Collab) (top_k : Int)
    (query_ids : Option (List String)) :
    List (String × String) → KwCache →
    Except PyErr (List (String × List (String × Rat))) × KwCache × Nat
  | [], cache => (.ok [], cache, 0)
  | (q_id, query) :: rest, cache =>
    if skipQuery query_ids q_id then
      hybrid_retrieve_rerank c top_k query_ids rest cache
    else
      match processQuery c cache top_k query with
      | (.error e, cache2, n) => (.error e, cache2, n)
      | (.ok m, cache2, n) =>
        match hybrid_retrieve_rerank c top_k query_ids rest cache2 with
        | (res, cache3, n2) => (res.map (fun l => (q_id, m) :: l), cache3, n + n2)

/-- A batch result: query id → (document id → score), in dict order. -/
abbrev RankingResult := List (String × List (String × Rat))

/-- Lines 475-484 of `BaseTask.generate`: the input-resolution performed
when the `results` argument is omitted, transcribed literally:
`results = self.rerank_results if self.rerank_results is None else
self.retrieve_results`, followed by `assert results is not None`. -/
def generate_input_resolution
    (rerank_results retrieve_results : Option RankingResult) :
    Except PyErr RankingResult :=
  let results := if rerank_results.isNone then rerank_results else retrieve_results
  match results with
  | none => .error .assertionError
  | some r => .ok r

/-- Ground-truth relevance judgments: query id → (doc id → grade). -/
abbrev Qrels := List (String × List (String × Int))

/-- The four metric values pytrec_eval reports for one query at one
cutoff. -/
structure QuadScore where
  ndcg : Rat
  mapv : Rat
  recl : Rat
  prec : Rat
deriving DecidableEq

/-- The external pytrec_eval collaborator: per query (with its filtered
result list) and per cutoff, the four metric values. -/
abbrev Scorer := String → List (String × Rat) → Int → QuadScore

/-- Python `round(x, 5)` (the half-to-even tie rule of binary floats is
immaterial here and modelled as half-up). -/
def round5 (x : Rat) : Rat := ((x * 100000 + 1 / 2).floor : Int) / 100000

/-- Lines 610-619 of `evaluate`: with `ignore_identical_ids`, pop from
each query's result dict every document id equal to the query id.  This
mutates the caller's `results` dict in place. -/
def remove_identical_ids (results : RankingResult) : RankingResult :=
  results.map fun p => (p.1, p.2.filter fun d => !(d.1 == p.1))

/-- Line 622: keep only queries that are present in `qrels`. -/
def filter_results (qrels : Qrels) (results : RankingResult) : RankingResult :=
  results.filter fun p => (qrels.map Prod.fst).contains p.1

/-- One aggregated metric entry (lines 649-661): sum the per-query
scores and divide by `len(scores)` — a `ZeroDivisionError` when no
query was scored. -/
def metric_line (scorer : Scorer) (f : QuadScore → Rat) (label : String)
    (scored : RankingResult) (k : Int) : Except PyErr (String × Rat) :=
  if scored.length = 0 then .error .zeroDivisionError
  else
    .ok (label ++ toString k,
      round5 ((scored.map fun p => f (scorer p.1 p.2 k)).sum / (scored.length : Rat)))

/-- Sequence a fallible computation over a list, stopping at the first
raised exception (the behaviour of the `for k in k_values` loop). -/
def mapExcept {α β : Type} (f : α → Except PyErr β) : List α → Except PyErr (List β)
  | [] => .ok []
  | a :: l =>
    match f a with
    | .error e => .error e
    | .ok b =>
      match mapExcept f l with
      | .error e => .error e
      | .ok bs => .ok (b :: bs)

def aggregate_metric (scorer : Scorer) (f : QuadScore → Rat) (label : String)
    (scored : RankingResult) (k_values : List Int) :
    Except PyErr (List (String × Rat)) :=
  mapExcept (metric_line scorer f label scored) k_values

/-- The four aggregated metric dicts returned by `evaluate`. -/
structure MetricReport where
  ndcg : List (String × Rat)
  mapv : List (String × Rat)
  recl : List (String × Rat)
  prec : List (String × Rat)
deriving DecidableEq

/-- Lines 610-622 composed: the queries that pytrec_eval actually
scores — `results` after the in-place self-match removal, restricted to
queries present in `qrels`. -/
def scored_queries (qrels : Qrels) (results : RankingResult)
    (ignore_identical_ids : Bool) : RankingResult :=
  filter_results qrels
    (if ignore_identical_ids then remove_identical_ids results else results)

/-- `BaseTask.evaluate` (lines 602-669).  pytrec_eval is the external
`scorer`; by its contract it returns one score entry per query of the
filtered results, so `len(scores)` is the number of filtered queries.
The first component is the caller's `results` dict after the call (the
self-match removal mutates it in place); the second is the metric
report, or the exception the call raised. -/
def evaluate (scorer : Scorer) (qrels : Qrels) (results : RankingResult)
    (k_values : List Int) (ignore_identical_ids : Bool) :
    RankingResult × Except PyErr MetricReport :=
  let results2 := if ignore_identical_ids then remove_identical_ids results else results
  let scored := scored_queries qrels results ignore_identical_ids
  (results2,
    do
      let a ← aggregate_metric scorer QuadScore.ndcg "NDCG@" scored k_values
      let b ← aggregate_metric scorer QuadScore.mapv "MAP@" scored k_values
      let r ← aggregate_metric scorer QuadScore.recl "Recall@" scored k_values
      let p ← aggregate_metric scorer QuadScore.prec "P@" scored k_values
      return ⟨a, b, r, p⟩)

/- ### Concrete collaborator instances used in counterexamples and
witnesses.  Frames are written as they come back from the lancedb
search-and-rerank chains: the reranker labels its score column
`_relevance_score` (`ur` cell, `hasUr` flag). -/

/-- Two dense candidates with equal rerank scores. -/
def dfC2tie : DF :=
  ⟨false, true, false,
    [⟨"a", none, some 1, none, false⟩, ⟨"b", none, some 1, none, false⟩]⟩

def collabC2cex : Collab :=
  ⟨fun _ => none, fun _ _ => none, fun _ _ => some dfC2tie, fun _ _ => none⟩

/-- Two dense candidates with distinct rerank scores. -/
def dfC2w : DF :=
  ⟨false, true, false,
    [⟨"a", none, some 1, none, false⟩, ⟨"b", none, some 2, none, false⟩]⟩

def collabC2w : Collab :=
  ⟨fun _ => none, fun _ _ => none, fun _ _ => some dfC2w, fun _ _ => none⟩

/-- Lexical (FTS) frame holding document `D`, reranker score column. -/
def dfC3fts : DF := ⟨false, true, false, [⟨"D", none, some 5, none, false⟩]⟩

/-- Dense frame holding the same document `D`, reranker score column. -/
def dfC3dense : DF := ⟨false, true, false, [⟨"D", none, some 3, none, false⟩]⟩

def collabC3cex : Collab :=
  ⟨fun _ => some "alpha", fun _ _ => some dfC3fts, fun _ _ => some dfC3dense,
    fun _ _ => none⟩

/-- Lexical frame with the canonical `score` column (post-rename). -/
def dfC3wLex : DF := ⟨false, false, true, [⟨"D", none, none, some 5, false⟩]⟩

/-- Dense frame whose score column is already the canonical `score`. -/
def dfC3wDense : DF :=
  ⟨false, false, true,
    [⟨"E", none, none, some 4, false⟩, ⟨"D", none, none, some 3, false⟩]⟩

/-- A dense frame with no recognised score column at all. -/
def dfC5bad : DF := ⟨false, false, false, [⟨"a", none, none, none, false⟩]⟩

def collabC5cex : Collab :=
  ⟨fun _ => none, fun _ _ => none, fun _ _ => some dfC5bad, fun _ _ => none⟩

/-- Dense frame with one well-formed row and one row whose rerank score
cell is NaN. -/
def dfC5w : DF :=
  ⟨false, true, false,
    [⟨"good", none, some 2, none, false⟩, ⟨"bad", none, none, none, false⟩]⟩

/-- A healthy single-candidate dense frame. -/
def dfC6 : DF := ⟨false, true, false, [⟨"a", none, some 1, none, false⟩]⟩

def collabC6cex : Collab :=
  ⟨fun _ => none, fun _ _ => none, fun _ _ => some dfC6, fun _ _ => none⟩

def collabC6w : Collab :=
  ⟨fun _ => none, fun _ _ => none, fun _ _ => some dfC6, fun _ _ => none⟩

def dfC7 : DF := ⟨false, true, false, [⟨"a", none, some 1, none, false⟩]⟩

def collabC7cex : Collab :=
  ⟨fun _ => none, fun _ _ => none, fun _ _ => some dfC7, fun _ _ => none⟩

/-- Two collaborators that agree on every search issued with `top_k = 0`
but differ elsewhere. -/
def collabC7w : Collab :=
  ⟨fun _ => none, fun _ _ => none, fun _ _ => some dfC7, fun _ _ => none⟩

def collabC7w2 : Collab :=
  ⟨fun _ => none, fun _ _ => none, fun _ _ => some dfC7,
    fun _ k => if k = 0 then none else some dfC7⟩

/-- A deterministic keyword-model stub. -/
def llmC9 : String → Option String := fun _ => some "alpha, beta"

/-- A constant pytrec_eval stub. -/
def constScorer : Scorer := fun _ _ _ => ⟨1, 1, 1, 1⟩

/-- Per-query result dicts ordered by (weakly) descending score. -/
def scoreDesc (m : List (String × Rat)) : Prop :=
  List.Pairwise (fun a b => b.2 ≤ a.2) m

/-- Strictly descending by score — the ordering the specification
claims. -/
def scoreStrictDesc (m : List (String × Rat)) : Prop :=
  List.Pairwise (fun a b => b.2 < a.2) m

/-- `results[q]` on a Python dict rendered as an association list. -/
def dictFind (k : String) (m : RankingResult) : Option (List (String × Rat)) :=
  (m.find? (fun p => p.1 == k)).map Prod.snd

/- ### Helper lemmas -/

theorem pyDictInsert_keys_nodup (m : List (String × Rat)) (k : String) (v : Rat)
    (h : (m.map Prod.fst).Nodup) : ((pyDictInsert m k v).map Prod.fst).Nodup := by
  unfold pyDictInsert
  split
  · have heq : (m.map (fun p => if p.1 == k then (p.1, v) else p)).map Prod.fst
        = m.map Prod.fst := by
      rw [List.map_map]
      apply List.map_congr_left
      intro p _
      show (if p.1 == k then (p.1, v) else p).1 = p.1
      split <;> rfl
    rw [heq]
    exact h
  · rename_i hany
    have hk : ∀ p ∈ m, p.1 ≠ k := by
      intro p hp hc
      exact hany (List.any_eq_true.2 ⟨p, hp, by simp [hc]⟩)
    rw [List.map_append]
    simp only [List.map_cons, List.map_nil]
    rw [List.nodup_append]
    refine ⟨h, List.nodup_singleton _, ?_⟩
    intro a ha hb
    rcases List.mem_map.1 ha with ⟨p, hp, hpa⟩
    have hak : a = k := List.mem_singleton.1 hb
    exact hk p hp (hpa.trans hak)

theorem toPyDict_go_keys_nodup (rows : List Row) :
    ∀ m : List (String × Rat), (m.map Prod.fst).Nodup →
      ((rows.foldl (fun m r => pyDictInsert m r.doc_id (scoreKey r)) m).map Prod.fst).Nodup := by
  induction rows with
  | nil => intro m hm; exact hm
  | cons r rest ih =>
    intro m hm
    exact ih _ (pyDictInsert_keys_nodup m r.doc_id (scoreKey r) hm)

theorem toPyDict_keys_nodup (rows : List Row) :
    ((toPyDict rows).map Prod.fst).Nodup :=
  toPyDict_go_keys_nodup rows [] (by simp)

theorem toPyDict_go_eq_map (rows : List Row) :
    ∀ m : List (String × Rat),
      (∀ r ∈ rows, ∀ p ∈ m, p.1 ≠ r.doc_id) →
      (rows.map Row.doc_id).Nodup →
      rows.foldl (fun m r => pyDictInsert m r.doc_id (scoreKey r)) m
        = m ++ rows.map (fun r => (r.doc_id, scoreKey r)) := by
  induction rows with
  | nil => intro m _ _; simp
  | cons r rest ih =>
    intro m hdisj hnd
    have hany : m.any (fun p => p.1 == r.doc_id) = false := by
      apply List.any_eq_false.2
      intro p hp
      simp only [beq_iff_eq]
      exact hdisj r (List.mem_cons_self _ _) p hp
    have hstep : pyDictInsert m r.doc_id (scoreKey r) = m ++ [(r.doc_id, scoreKey r)] := by
      unfold pyDictInsert
      rw [hany]
      simp
    simp only [List.foldl_cons, hstep]
    rw [ih (m ++ [(r.doc_id, scoreKey r)]) ?_ ?_]
    · simp
    · intro r' hr' p hp
      rcases List.mem_append.1 hp with hp | hp
      · exact hdisj r' (List.mem_cons_of_mem _ hr') p hp
      · simp only [List.mem_singleton] at hp
        subst hp
        simp only [List.map_cons, List.nodup_cons] at hnd
        intro hc
        apply hnd.1
        have hc2 : r.doc_id = r'.doc_id := hc
        rw [hc2]
        exact List.mem_map_of_mem Row.doc_id hr'
    · simp only [List.map_cons, List.nodup_cons] at hnd
      exact hnd.2

theorem toPyDict_eq_map (rows : List Row) (h : (rows.map Row.doc_id).Nodup) :
    toPyDict rows = rows.map (fun r => (r.doc_id, scoreKey r)) := by
  unfold toPyDict
  rw [toPyDict_go_eq_map rows [] (by simp) h]
  simp

theorem dropDupAux_subset : ∀ (rows : List Row) (seen : List String) (r : Row),
    r ∈ dropDupAux seen rows → r ∈ rows := by
  intro rows
  induction rows with
  | nil => intro seen r h; simp [dropDupAux] at h
  | cons x rest ih =>
    intro seen r h
    unfold dropDupAux at h
    split at h
    · exact List.mem_cons_of_mem _ (ih seen r h)
    · rcases List.mem_cons.1 h with h | h
      · rw [h]
        exact List.mem_cons_self _ _
      · exact List.mem_cons_of_mem _ (ih _ r h)

theorem dropDupAux_nodup : ∀ (rows : List Row) (seen : List String),
    ((dropDupAux seen rows).map Row.doc_id).Nodup
      ∧ ∀ d ∈ (dropDupAux seen rows).map Row.doc_id, seen.contains d = false := by
  intro rows
  induction rows with
  | nil => intro seen; simp [dropDupAux]
  | cons x rest ih =>
    intro seen
    unfold dropDupAux
    split
    · exact ih seen
    · rename_i hnotin
      rcases ih (x.doc_id :: seen) with ⟨hnd, hdisj⟩
      constructor
      · simp only [List.map_cons, List.nodup_cons]
        refine ⟨?_, hnd⟩
        intro hc
        have := hdisj _ hc
        simp [List.contains_cons] at this
      · intro d hd
        simp only [List.map_cons, List.mem_cons] at hd
        rcases hd with hd | hd
        · subst hd
          simpa using hnotin
        · have := hdisj d hd
          simp only [List.contains_cons, Bool.or_eq_false_iff] at this
          exact this.2

theorem dropDupAux_keeps_first : ∀ (rows : List Row) (seen : List String)
    (D : String) (r0 : Row),
    rows.find? (fun r => r.doc_id == D) = some r0 → seen.contains D = false →
    r0 ∈ dropDupAux seen rows := by
  intro rows
  induction rows with
  | nil => intro seen D r0 h; simp [List.find?] at h
  | cons x rest ih =>
    intro seen D r0 hfind hseen
    by_cases hx : x.doc_id == D
    · have hpos : (x :: rest).find? (fun r => r.doc_id == D) = some x :=
        List.find?_cons_of_pos rest hx
      rw [hpos] at hfind
      injection hfind with h0
      rw [← h0]
      unfold dropDupAux
      have hcx : seen.contains x.doc_id = false := by
        rw [eq_of_beq hx]
        exact hseen
      rw [hcx]
      simp
    · have hneg : (x :: rest).find? (fun r => r.doc_id == D)
          = rest.find? (fun r => r.doc_id == D) :=
        List.find?_cons_of_neg rest (by simpa using hx)
      rw [hneg] at hfind
      unfold dropDupAux
      split
      · exact ih seen D r0 hfind hseen
      · refine List.mem_cons_of_mem _ (ih _ D r0 hfind ?_)
        simp only [List.contains_cons, Bool.or_eq_false_iff]
        constructor
        · simp only [beq_eq_false_iff_ne, ne_eq]
          intro hc
          exact hx (by simp [hc])
        · exact hseen

theorem rename_keeps_doc_ids (df df2 : DF) (b : Bool)
    (h : rename_score_column df = .ok (df2, b)) :
    df2.rows.map Row.doc_id = df.rows.map Row.doc_id := by
  unfold rename_score_column at h
  split at h
  · cases h
    rfl
  · split at h
    · cases h
      show (df.rows.map _).map Row.doc_id = _
      rw [List.map_map]
      apply List.map_congr_left
      intro r _
      rfl
    · split at h
      · cases h
        show (df.rows.map _).map Row.doc_id = _
        rw [List.map_map]
        apply List.map_congr_left
        intro r _
        rfl
      · exact absurd h (by simp)

theorem sort_values_ok (df df3 : DF) (h : sort_values_score df = .ok df3) :
    df3.rows = List.insertionSort rowGE df.rows := by
  unfold sort_values_score at h
  split at h
  · cases h
    rfl
  · exact absurd h (by simp)

theorem maskRow_doc_id (a b c : Bool) (r : Row) :
    (maskRow a b c r).doc_id = r.doc_id := rfl

theorem finalizeQuery_inv (r1 dense : DF) (m : List (String × Rat))
    (h : finalizeQuery r1 dense = .ok m) :
    ∃ df2 b df3,
      rename_score_column (dropna (fusedFrame r1 dense)) = .ok (df2, b)
      ∧ sort_values_score df2 = .ok df3
      ∧ m = toPyDict df3.rows := by
  simp only [finalizeQuery] at h
  split at h
  · exact absurd h (by simp)
  · rename_i df2 b heq
    split at h
    · exact absurd h (by simp)
    · rename_i df3 heq2
      injection h with h'
      exact ⟨df2, b, df3, heq, heq2, h'.symm⟩

theorem fusedFrame_ids_nodup (r1 dense : DF)
    (hnd : (dense.rows.map Row.doc_id).Nodup) :
    ((fusedFrame r1 dense).rows.map Row.doc_id).Nodup := by
  unfold fusedFrame
  split
  · exact hnd
  · exact (dropDupAux_nodup _ []).1

theorem finalize_ok_keys_nodup (r1 dense : DF) (m : List (String × Rat))
    (h : finalizeQuery r1 dense = .ok m) : (m.map Prod.fst).Nodup := by
  rcases finalizeQuery_inv r1 dense m h with ⟨df2, b, df3, _, _, hm⟩
  rw [hm]
  exact toPyDict_keys_nodup _

theorem finalize_ok_desc (r1 dense : DF) (m : List (String × Rat))
    (hnd : (dense.rows.map Row.doc_id).Nodup)
    (h : finalizeQuery r1 dense = .ok m) : scoreDesc m := by
  rcases finalizeQuery_inv r1 dense m h with ⟨df2, b, df3, hren, hsort, hm⟩
  have hclean : ((dropna (fusedFrame r1 dense)).rows.map Row.doc_id).Nodup :=
    (fusedFrame_ids_nodup r1 dense hnd).sublist
      ((List.filter_sublist _).map Row.doc_id)
  have hdf2 : (df2.rows.map Row.doc_id).Nodup := by
    rw [rename_keeps_doc_ids _ _ _ hren]
    exact hclean
  have hperm : df3.rows.Perm df2.rows := by
    rw [sort_values_ok _ _ hsort]
    exact List.perm_insertionSort _ _
  have hdf3 : (df3.rows.map Row.doc_id).Nodup :=
    ((hperm.map Row.doc_id).nodup_iff).2 hdf2
  have hsorted : List.Sorted rowGE df3.rows := by
    rw [sort_values_ok _ _ hsort]
    exact List.sorted_insertionSort _ _
  rw [hm, toPyDict_eq_map _ hdf3]
  unfold scoreDesc
  apply List.pairwise_map.2
  exact hsorted.imp (fun hab => hab)

theorem find?_append_left {α : Type} {p : α → Bool} :
    ∀ (l1 l2 : List α) (x : α), l1.find? p = some x → (l1 ++ l2).find? p = some x := by
  intro l1
  induction l1 with
  | nil => intro l2 x h; simp [List.find?] at h
  | cons a rest ih =>
    intro l2 x h
    by_cases ha : p a
    · have h1 : (a :: rest).find? p = some a := List.find?_cons_of_pos rest ha
      rw [h1] at h
      have h2 : ((a :: rest) ++ l2).find? p = some a := by
        show (a :: (rest ++ l2)).find? p = some a
        exact List.find?_cons_of_pos _ ha
      rw [h2]
      exact h
    · have h1 : (a :: rest).find? p = rest.find? p :=
        List.find?_cons_of_neg rest (by simpa using ha)
      rw [h1] at h
      have h2 : ((a :: rest) ++ l2).find? p = (rest ++ l2).find? p := by
        show (a :: (rest ++ l2)).find? p = _
        exact List.find?_cons_of_neg _ (by simpa using ha)
      rw [h2]
      exact ih l2 x h

theorem find?_map_mask (a b c : Bool) (D : String) :
    ∀ l : List Row,
      (l.map (maskRow a b c)).find? (fun r => r.doc_id == D)
        = (l.find? (fun r => r.doc_id == D)).map (maskRow a b c) := by
  intro l
  induction l with
  | nil => simp [List.find?]
  | cons x rest ih =>
    by_cases hx : x.doc_id == D
    · have hl : (x :: rest).find? (fun r => r.doc_id == D) = some x :=
        List.find?_cons_of_pos rest hx
      have hlm : ((x :: rest).map (maskRow a b c)).find? (fun r => r.doc_id == D)
          = some (maskRow a b c x) := by
        show ((maskRow a b c x) :: rest.map (maskRow a b c)).find?
            (fun r => r.doc_id == D) = _
        exact List.find?_cons_of_pos _ (by simpa [maskRow_doc_id] using hx)
      rw [hl, hlm]
      rfl
    · have hl : (x :: rest).find? (fun r => r.doc_id == D)
          = rest.find? (fun r => r.doc_id == D) :=
        List.find?_cons_of_neg rest (by simpa using hx)
      have hlm : ((x :: rest).map (maskRow a b c)).find? (fun r => r.doc_id == D)
          = (rest.map (maskRow a b c)).find? (fun r => r.doc_id == D) := by
        show ((maskRow a b c x) :: rest.map (maskRow a b c)).find?
            (fun r => r.doc_id == D) = _
        exact List.find?_cons_of_neg _ (by simpa [maskRow_doc_id] using hx)
      rw [hl, hlm, ih]

theorem processQuery_ok_props (c : Collab) (cache : KwCache) (tk : Int)
    (q : String) (m : List (String × Rat)) (cacheB : KwCache) (n : Nat)
    (hden : ∀ s k df, c.hybrid s k = some df ∨ c.vector s k = some df →
      (df.rows.map Row.doc_id).Nodup)
    (h : processQuery c cache tk q = (.ok m, cacheB, n)) :
    (m.map Prod.fst).Nodup ∧ scoreDesc m := by
  rcases hfts : ftsStage c cache tk q with ⟨r1, cacheA, n1⟩
  unfold processQuery at h
  rw [hfts] at h
  cases hh : c.hybrid q tk with
  | some df =>
    rw [hh] at h
    injection h with h1 h2
    exact ⟨finalize_ok_keys_nodup r1 df m h1,
      finalize_ok_desc r1 df m (hden q tk df (Or.inl hh)) h1⟩
  | none =>
    rw [hh] at h
    cases hv : c.vector q tk with
    | some df =>
      rw [hv] at h
      injection h with h1 h2
      exact ⟨finalize_ok_keys_nodup r1 df m h1,
        finalize_ok_desc r1 df m (hden q tk df (Or.inr hv)) h1⟩
    | none =>
      rw [hv] at h
      injection h with h1 h2
      injection h1 with h1
      rw [← h1]
      exact ⟨by simp, by unfold scoreDesc; exact List.Pairwise.nil⟩

/-- C2 (amended): for every query processed by `hybrid_retrieve_rerank`,
provided every dense-stage candidate frame the collaborators return has
pairwise-distinct document ids, the per-query output mapping is ordered
by *weakly* descending canonical score and no two of its entries share a
document id.  (Strictness fails on tied scores — see the counterexample
— and the document-id hypothesis is needed because the dense frame is
never deduplicated when the lexical stage is empty.) -/
theorem hybrid_retrieve_rerank_sorted_nodup (c : Collab)
    (hden : ∀ s k df, c.hybrid s k = some df ∨ c.vector s k = some df →
      (df.rows.map Row.doc_id).Nodup) :
    ∀ (qs : List (String × String)) (tk : Int) (qids : Option (List String))
      (cache : KwCache) (res : List (String × List (String × Rat)))
      (cacheB : KwCache) (n : Nat) (q_id : String) (m : List (String × Rat)),
      hybrid_retrieve_rerank c tk qids qs cache = (.ok res, cacheB, n) →
      (q_id, m) ∈ res →
      (m.map Prod.fst).Nodup ∧ scoreDesc m := by
  intro qs
  induction qs with
  | nil =>
    intro tk qids cache res cacheB n q_id m hrun hm
    unfold hybrid_retrieve_rerank at hrun
    injection hrun with h1 h2
    injection h1 with h1
    rw [← h1] at hm
    simp at hm
  | cons p rest ih =>
    intro tk qids cache res cacheB n q_id m hrun hm
    rcases p with ⟨qid0, qtext0⟩
    unfold hybrid_retrieve_rerank at hrun
    split at hrun
    · exact ih tk qids cache res cacheB n q_id m hrun hm
    · rcases hpq : processQuery c cache tk qtext0 with ⟨pres, cacheA, n1⟩
      rw [hpq] at hrun
      cases pres with
      | error e =>
        have hrun2 :
            ((Except.error e : Except PyErr (List (String × List (String × Rat)))),
              cacheA, n1) = (Except.ok res, cacheB, n) := hrun
        exact absurd hrun2 (by simp)
      | ok m0 =>
        have hrun2 : (match hybrid_retrieve_rerank c tk qids rest cacheA with
            | (r2, cache3, n2) =>
              (Except.map (fun l => (qid0, m0) :: l) r2, cache3, n1 + n2))
            = (Except.ok res, cacheB, n) := hrun
        rcases hrec : hybrid_retrieve_rerank c tk qids rest cacheA
          with ⟨resR, cacheR, nR⟩
        rw [hrec] at hrun2
        cases resR with
        | error e => exact absurd hrun2 (by simp [Except.map])
        | ok resL =>
          injection hrun2 with h1 h2
          have h1' : (qid0, m0) :: resL = res := by
            simpa [Except.map] using h1
          rw [← h1'] at hm
          rcases List.mem_cons.1 hm with hm | hm
          · have hm2 : m = m0 := congrArg Prod.snd hm
            rw [hm2]
            exact processQuery_ok_props c cache tk qtext0 m0 cacheA n1 hden hpq
          · exact ih tk qids cacheA resL cacheR nR q_id m hrec hm

/-- C2 (counterexample): with tied rerank scores the per-query output of
`hybrid_retrieve_rerank` is *not* strictly descending: the two surviving
entries carry the same canonical score. -/
theorem hybrid_retrieve_rerank_strict_sort_cex :
    (hybrid_retrieve_rerank collabC2cex 100 none [("q1", "t")] ⟨[]⟩).1
      = .ok [("q1", [("a", 1), ("b", 1)])]
    ∧ ¬ scoreStrictDesc [("a", (1 : Rat)), ("b", 1)] := by
  constructor
  · decide
  · intro hs
    unfold scoreStrictDesc at hs
    rcases List.pairwise_cons.1 hs with ⟨hrel, _⟩
    have hlt := hrel ("b", 1) (List.mem_singleton.2 rfl)
    simp at hlt

/-- C2 (witness): the amended theorem applied to a concrete two-document
run. -/
theorem hybrid_retrieve_rerank_sorted_nodup_witness :
    (([("b", (2 : Rat)), ("a", 1)].map Prod.fst).Nodup
      ∧ scoreDesc [("b", (2 : Rat)), ("a", 1)]) :=
  hybrid_retrieve_rerank_sorted_nodup collabC2w
    (fun s k df h => by
      rcases h with h | h
      · have hd : dfC2w = df := by
          simpa [collabC2w] using h
        rw [← hd]
        decide
      · simp [collabC2w] at h)
    [("q1", "t")] 100 none ⟨[]⟩ [("q1", [("b", 2), ("a", 1)])] ⟨[]⟩ 2
    "q1" [("b", 2), ("a", 1)] (by decide) (by decide)

/-- C3 (amended): when the lexical frame and the dense frame carry their
scores under the *same* canonical `score` column at fusion time (and the
rows are otherwise clean), a document id returned by both stages
survives exactly once and keeps the lexical-stage score, because the
lexical list is concatenated first and deduplication keeps the first
occurrence.  When the two frames' score-column names differ, `concat`
NaN-fills the union of the columns and `dropna` removes the fused rows —
see the counterexample. -/
theorem fusion_keeps_lexical_score (r1 dense : DF) (D : String) (v : Rat) (rD : Row)
    (h1S : r1.hasS = true) (h1u : r1.hasUs = false) (h1r : r1.hasUr = false)
    (h2S : dense.hasS = true) (h2u : dense.hasUs = false) (h2r : dense.hasUr = false)
    (h1clean : ∀ r ∈ r1.rows, r.s.isSome = true ∧ r.otherNa = false)
    (h2clean : ∀ r ∈ dense.rows, r.s.isSome = true ∧ r.otherNa = false)
    (hfind : r1.rows.find? (fun r => r.doc_id == D) = some rD)
    (hscore : rD.s = some v)
    (hD2 : D ∈ dense.rows.map Row.doc_id) :
    ∃ m, finalizeQuery r1 dense = .ok m ∧ (D, v) ∈ m ∧ (m.map Prod.fst).Nodup := by
  have hne : r1.rows.isEmpty = false := by
    cases hr : r1.rows with
    | nil => rw [hr] at hfind; simp [List.find?] at hfind
    | cons x l => simp
  have hrows : (concatDF r1 dense).rows
      = r1.rows.map (maskRow false false true)
        ++ dense.rows.map (maskRow false false true) := by
    unfold concatDF
    rw [h1u, h2u, h1r, h2r, h1S, h2S]
  have hflags : (concatDF r1 dense).hasUs = false ∧ (concatDF r1 dense).hasUr = false
      ∧ (concatDF r1 dense).hasS = true := by
    unfold concatDF
    rw [h1u, h2u, h1r, h2r, h1S, h2S]
    exact ⟨rfl, rfl, rfl⟩
  -- the deduplicated fused row list
  have hfused : fusedFrame r1 dense = drop_duplicates_doc_id (concatDF r1 dense) := by
    unfold fusedFrame
    rw [hne]
    simp
  have hddrows : (drop_duplicates_doc_id (concatDF r1 dense)).rows
      = dropDupAux [] (r1.rows.map (maskRow false false true)
          ++ dense.rows.map (maskRow false false true)) := by
    unfold drop_duplicates_doc_id
    rw [hrows]
  -- dropna keeps every fused row
  have hkeep : ∀ r ∈ (fusedFrame r1 dense).rows,
      naKeep (fusedFrame r1 dense) r = true := by
    intro r hr
    rw [hfused, hddrows] at hr
    have hr2 := dropDupAux_subset _ _ _ hr
    have hsNa : r.s.isSome = true ∧ r.otherNa = false := by
      rcases List.mem_append.1 hr2 with hmem | hmem
      · rcases List.mem_map.1 hmem with ⟨r0, hr0, hmask⟩
        rcases h1clean r0 hr0 with ⟨hs0, hna0⟩
        rw [← hmask]
        exact ⟨by simpa [maskRow] using hs0, by simpa [maskRow] using hna0⟩
      · rcases List.mem_map.1 hmem with ⟨r0, hr0, hmask⟩
        rcases h2clean r0 hr0 with ⟨hs0, hna0⟩
        rw [← hmask]
        exact ⟨by simpa [maskRow] using hs0, by simpa [maskRow] using hna0⟩
    rw [hfused]
    unfold naKeep drop_duplicates_doc_id
    simp [hflags.1, hflags.2.1, hflags.2.2, hsNa.1, hsNa.2]
  have hSfused : (fusedFrame r1 dense).hasS = true := by
    rw [hfused]
    exact hflags.2.2
  have hcleaned : dropna (fusedFrame r1 dense) = fusedFrame r1 dense := by
    rcases hF : fusedFrame r1 dense with ⟨fa, fb, fc, frows⟩
    rw [hF] at hkeep
    show DF.mk fa fb fc (frows.filter (naKeep ⟨fa, fb, fc, frows⟩)) = ⟨fa, fb, fc, frows⟩
    have hfr : frows.filter (naKeep ⟨fa, fb, fc, frows⟩) = frows :=
      List.filter_eq_self.2 hkeep
    rw [hfr]
  have hren : rename_score_column (dropna (fusedFrame r1 dense))
      = .ok (fusedFrame r1 dense, false) := by
    rw [hcleaned]
    unfold rename_score_column
    simp [hSfused]
  have hsort : sort_values_score (fusedFrame r1 dense)
      = .ok { fusedFrame r1 dense with
          rows := List.insertionSort rowGE (fusedFrame r1 dense).rows } := by
    unfold sort_values_score
    simp [hSfused]
  have hfin : finalizeQuery r1 dense
      = .ok (toPyDict (List.insertionSort rowGE (fusedFrame r1 dense).rows)) := by
    simp only [finalizeQuery, hren, hsort]
  -- the masked lexical row for D survives deduplication
  have hfindA : (r1.rows.map (maskRow false false true)).find?
      (fun r => r.doc_id == D) = some (maskRow false false true rD) := by
    rw [find?_map_mask, hfind]
    rfl
  have hfindAB : (r1.rows.map (maskRow false false true)
      ++ dense.rows.map (maskRow false false true)).find?
        (fun r => r.doc_id == D) = some (maskRow false false true rD) :=
    find?_append_left _ _ _ hfindA
  have hmemdd : maskRow false false true rD ∈ (fusedFrame r1 dense).rows := by
    rw [hfused, hddrows]
    exact dropDupAux_keeps_first _ [] D _ hfindAB rfl
  have hmemsort : maskRow false false true rD
      ∈ List.insertionSort rowGE (fusedFrame r1 dense).rows :=
    (List.perm_insertionSort rowGE _).mem_iff.2 hmemdd
  -- identifiers and scores of the masked row
  have hbeq0 := List.find?_some hfind
  have hbeq : (rD.doc_id == D) = true := hbeq0
  have hdocD : (maskRow false false true rD).doc_id = D := by
    show rD.doc_id = D
    exact eq_of_beq hbeq
  have hscoreD : scoreKey (maskRow false false true rD) = v := by
    unfold scoreKey maskRow
    simp [hscore]
  -- nodup ids of the sorted fused rows
  have hnd : ((List.insertionSort rowGE (fusedFrame r1 dense).rows).map
      Row.doc_id).Nodup := by
    have h1 : ((fusedFrame r1 dense).rows.map Row.doc_id).Nodup := by
      rw [hfused, hddrows]
      exact (dropDupAux_nodup _ []).1
    exact (((List.perm_insertionSort rowGE _).map Row.doc_id).nodup_iff).2 h1
  refine ⟨toPyDict (List.insertionSort rowGE (fusedFrame r1 dense).rows), hfin, ?_, ?_⟩
  · rw [toPyDict_eq_map _ hnd]
    have hmem := List.mem_map_of_mem (fun r => (r.doc_id, scoreKey r)) hmemsort
    have hmem2 : ((maskRow false false true rD).doc_id,
        scoreKey (maskRow false false true rD))
        ∈ List.map (fun r => (r.doc_id, scoreKey r))
            (List.insertionSort rowGE (fusedFrame r1 dense).rows) := hmem
    rw [hdocD, hscoreD] at hmem2
    exact hmem2
  · exact toPyDict_keys_nodup _

/-- C3 (counterexample): both stages return document `D`, but because
the lexical frame's score column has been renamed to `score` while the
dense frame still carries `_relevance_score`, `pandas.concat` NaN-fills
the union of the two columns and `dropna` then removes every fused row:
no entry for `D` (with the lexical score 5 or any other score) survives,
the query's result is empty. -/
theorem fusion_keeps_lexical_score_cex :
    hybrid_retrieve_rerank collabC3cex 100 none [("q1", "t")] ⟨[]⟩
      = (.ok [("q1", [])], ⟨[(("t", 100), ["alpha"])]⟩, 3)
    ∧ ∀ v : Rat, ("D", v) ∉ ([] : List (String × Rat)) := by
  constructor
  · decide
  · intro v hv
    simp at hv

/-- C3 (witness): the amended theorem applied to concrete frames whose
score columns agree on the canonical name. -/
theorem fusion_keeps_lexical_score_witness :
    ∃ m, finalizeQuery dfC3wLex dfC3wDense = .ok m
      ∧ ("D", (5 : Rat)) ∈ m ∧ (m.map Prod.fst).Nodup :=
  fusion_keeps_lexical_score dfC3wLex dfC3wDense "D" 5
    ⟨"D", none, none, some 5, false⟩
    rfl rfl rfl rfl rfl rfl
    (by decide) (by decide) (by decide) (by decide) (by decide)

/-- C5 (amended): a candidate row whose rerank-score cell is missing
(NaN) is dropped individually by `dropna` and is not fatal: with a
dense-only frame carrying the `_relevance_score` column, the surviving
output is exactly the well-formed rows with their scores, provided at
least one row survives.  (A frame with *no* recognised score column, or
one whose rows are all dropped, instead aborts the whole batch — see the
counterexample.) -/
theorem malformed_rows_dropped_individually (dense : DF)
    (h2u : dense.hasUs = false) (h2r : dense.hasUr = true) (h2S : dense.hasS = false)
    (hnd : (dense.rows.map Row.doc_id).Nodup)
    (hsome : dense.rows.filter (fun r => r.ur.isSome && !r.otherNa) ≠ []) :
    ∃ m, finalizeQuery emptyDF dense = .ok m
      ∧ m.Perm ((dense.rows.filter (fun r => r.ur.isSome && !r.otherNa)).map
          (fun r => (r.doc_id, r.ur.getD 0))) := by
  rcases dense with ⟨du, dr, ds, drows⟩
  have hdu : du = false := h2u
  have hdr : dr = true := h2r
  have hds : ds = false := h2S
  subst hdu
  subst hdr
  subst hds
  have hfilter : drows.filter (naKeep ⟨false, true, false, drows⟩)
      = drows.filter (fun r => r.ur.isSome && !r.otherNa) := by
    apply List.filter_congr
    intro r _
    unfold naKeep
    simp
  have hcleaned : dropna (fusedFrame emptyDF ⟨false, true, false, drows⟩)
      = ⟨false, true, false, drows.filter (fun r => r.ur.isSome && !r.otherNa)⟩ := by
    show dropna ⟨false, true, false, drows⟩ = _
    unfold dropna
    show DF.mk false true false (drows.filter (naKeep ⟨false, true, false, drows⟩)) = _
    rw [hfilter]
  have hlen : ((drows.filter (fun r => r.ur.isSome && !r.otherNa)).length == 0) = false := by
    cases hF : drows.filter (fun r => r.ur.isSome && !r.otherNa) with
    | nil => exact absurd hF hsome
    | cons a l => simp
  have hren : rename_score_column ⟨false, true, false,
      drows.filter (fun r => r.ur.isSome && !r.otherNa)⟩
      = .ok (⟨false, false, true,
          (drows.filter (fun r => r.ur.isSome && !r.otherNa)).map
            (fun r => { r with s := r.ur, ur := none })⟩, true) := by
    unfold rename_score_column
    simp [hlen]
  have hsort : sort_values_score ⟨false, false, true,
      (drows.filter (fun r => r.ur.isSome && !r.otherNa)).map
        (fun r => { r with s := r.ur, ur := none })⟩
      = .ok ⟨false, false, true,
          List.insertionSort rowGE
            ((drows.filter (fun r => r.ur.isSome && !r.otherNa)).map
              (fun r => { r with s := r.ur, ur := none }))⟩ := by
    unfold sort_values_score
    simp
  have hfin : finalizeQuery emptyDF ⟨false, true, false, drows⟩
      = .ok (toPyDict (List.insertionSort rowGE
          ((drows.filter (fun r => r.ur.isSome && !r.otherNa)).map
            (fun r => { r with s := r.ur, ur := none })))) := by
    simp only [finalizeQuery, hcleaned, hren, hsort]
  have hndF : (((drows.filter (fun r => r.ur.isSome && !r.otherNa)).map
      (fun r => { r with s := r.ur, ur := none })).map Row.doc_id).Nodup := by
    have h1 : ((drows.filter (fun r => r.ur.isSome && !r.otherNa)).map Row.doc_id).Nodup :=
      hnd.sublist ((List.filter_sublist _).map Row.doc_id)
    have h2 : ((drows.filter (fun r => r.ur.isSome && !r.otherNa)).map
        (fun r => { r with s := r.ur, ur := none })).map Row.doc_id
        = (drows.filter (fun r => r.ur.isSome && !r.otherNa)).map Row.doc_id := by
      rw [List.map_map]
      apply List.map_congr_left
      intro r _
      rfl
    rw [h2]
    exact h1
  have hndSort : ((List.insertionSort rowGE
      ((drows.filter (fun r => r.ur.isSome && !r.otherNa)).map
        (fun r => { r with s := r.ur, ur := none }))).map Row.doc_id).Nodup :=
    (((List.perm_insertionSort rowGE _).map Row.doc_id).nodup_iff).2 hndF
  refine ⟨_, hfin, ?_⟩
  rw [toPyDict_eq_map _ hndSort]
  have hperm := (List.perm_insertionSort rowGE
      ((drows.filter (fun r => r.ur.isSome && !r.otherNa)).map
        (fun r => { r with s := r.ur, ur := none }))).map
      (fun r => (r.doc_id, scoreKey r))
  have hX : ((drows.filter (fun r => r.ur.isSome && !r.otherNa)).map
      (fun r => { r with s := r.ur, ur := none })).map (fun r => (r.doc_id, scoreKey r))
      = (drows.filter (fun r => r.ur.isSome && !r.otherNa)).map
          (fun r => (r.doc_id, r.ur.getD 0)) := by
    rw [List.map_map]
    apply List.map_congr_left
    intro r _
    rfl
  rw [hX] at hperm
  exact hperm

/-- C5 (counterexample): a dense frame with no recognised score field
reaches the un-guarded `_rename_score_column` call at line 275, whose
`ValueError` propagates out of `hybrid_retrieve_rerank`: the malformed
rows are fatal to the whole batch, not individually dropped. -/
theorem malformed_rows_fatal_cex :
    hybrid_retrieve_rerank collabC5cex 100 none [("q1", "t")] ⟨[]⟩
      = (.error .valueError, ⟨[]⟩, 2) := by decide

/-- C5 (witness): the amended theorem applied to a frame with one good
row and one NaN-score row. -/
theorem malformed_rows_dropped_individually_witness :
    ∃ m, finalizeQuery emptyDF dfC5w = .ok m
      ∧ m.Perm ((dfC5w.rows.filter (fun r => r.ur.isSome && !r.otherNa)).map
          (fun r => (r.doc_id, r.ur.getD 0))) :=
  malformed_rows_dropped_individually dfC5w rfl rfl rfl (by decide) (by decide)

theorem hrr_cons_skip (c : Collab) (tk : Int) (qids : Option (List String))
    (qid0 qtext0 : String) (rest : List (String × String)) (cache : KwCache)
    (h : skipQuery qids qid0 = true) :
    hybrid_retrieve_rerank c tk qids ((qid0, qtext0) :: rest) cache
      = hybrid_retrieve_rerank c tk qids rest cache := by
  simp only [hybrid_retrieve_rerank]
  rw [h]
  rfl

theorem hrr_cons_no_skip (c : Collab) (tk : Int) (qids : Option (List String))
    (qid0 qtext0 : String) (rest : List (String × String)) (cache : KwCache)
    (h : skipQuery qids qid0 = false) :
    hybrid_retrieve_rerank c tk qids ((qid0, qtext0) :: rest) cache
      = match processQuery c cache tk qtext0 with
        | (.error e, cache2, n) => (.error e, cache2, n)
        | (.ok m, cache2, n) =>
          match hybrid_retrieve_rerank c tk qids rest cache2 with
          | (res, cache3, n2) =>
            (Except.map (fun x => (qid0, m) :: x) res, cache3, n + n2) := by
  simp only [hybrid_retrieve_rerank]
  rw [h]
  rfl

/-- C6 (amended): for every *nonempty* `query_ids` subset,
`hybrid_retrieve_rerank` skips exactly the queries whose id is absent —
processing the batch as if it were filtered to the subset — and with a
subset disjoint from the loaded queries it returns an empty result, an
untouched cache and zero collaborator invocations.  (An *empty* subset
is falsy in Python, so the guard `if query_ids and ...` never skips and
every query is processed — see the counterexample.) -/
theorem hybrid_retrieve_rerank_subset (c : Collab) (tk : Int) (l : List String)
    (hl : l ≠ []) :
    ∀ (qs : List (String × String)) (cache : KwCache),
      hybrid_retrieve_rerank c tk (some l) qs cache
        = hybrid_retrieve_rerank c tk (some l)
            (qs.filter (fun p => l.contains p.1)) cache
      ∧ ((∀ p ∈ qs, p.1 ∉ l) →
          hybrid_retrieve_rerank c tk (some l) qs cache = (.ok [], cache, 0)) := by
  have hskipeq : ∀ q : String, skipQuery (some l) q = !l.contains q := by
    intro q
    unfold skipQuery
    cases l with
    | nil => exact absurd rfl hl
    | cons a t => simp
  intro qs
  induction qs with
  | nil =>
    intro cache
    exact ⟨rfl, fun _ => rfl⟩
  | cons p rest ih =>
    intro cache
    rcases p with ⟨qid0, qtext0⟩
    constructor
    · cases hb : l.contains qid0 with
      | true =>
        have hf : List.filter (fun p => l.contains p.1) ((qid0, qtext0) :: rest)
            = (qid0, qtext0) :: rest.filter (fun p => l.contains p.1) := by
          simp only [List.filter_cons, hb]
          rfl
        have hns : skipQuery (some l) qid0 = false := by
          rw [hskipeq, hb]
          rfl
        rw [hf, hrr_cons_no_skip c tk (some l) qid0 qtext0 rest cache hns,
          hrr_cons_no_skip c tk (some l) qid0 qtext0
            (rest.filter (fun p => l.contains p.1)) cache hns]
        rcases hpq : processQuery c cache tk qtext0 with ⟨pres, cacheA, n1⟩
        cases pres with
        | error e => rfl
        | ok m0 =>
          show (match hybrid_retrieve_rerank c tk (some l) rest cacheA with
              | (res, cache3, n2) =>
                (Except.map (fun x => (qid0, m0) :: x) res, cache3, n1 + n2))
            = (match hybrid_retrieve_rerank c tk (some l)
                  (rest.filter (fun p => l.contains p.1)) cacheA with
              | (res, cache3, n2) =>
                (Except.map (fun x => (qid0, m0) :: x) res, cache3, n1 + n2))
          rw [(ih cacheA).1]
      | false =>
        have hf : List.filter (fun p => l.contains p.1) ((qid0, qtext0) :: rest)
            = rest.filter (fun p => l.contains p.1) := by
          simp only [List.filter_cons, hb]
          rfl
        have hs : skipQuery (some l) qid0 = true := by
          rw [hskipeq, hb]
          rfl
        rw [hf, hrr_cons_skip c tk (some l) qid0 qtext0 rest cache hs]
        exact (ih cache).1
    · intro hdisj
      have hqid : qid0 ∉ l := hdisj (qid0, qtext0) (List.mem_cons_self _ _)
      have hb : l.contains qid0 = false := by
        cases hb2 : l.contains qid0 with
        | false => rfl
        | true => exact absurd (List.mem_of_elem_eq_true hb2) hqid
      have hs : skipQuery (some l) qid0 = true := by
        rw [hskipeq, hb]
        rfl
      rw [hrr_cons_skip c tk (some l) qid0 qtext0 rest cache hs]
      exact (ih cache).2 (fun p hp => hdisj p (List.mem_cons_of_mem _ hp))

/-- C6 (counterexample): an empty `query_ids` subset is disjoint from
every loaded query, yet Python's truthiness test `if query_ids and ...`
treats it as "no subset given": the query is processed, collaborators
are invoked twice, and the result is nonempty — not the empty
RankingResult with no collaborator calls that the claim promises. -/
theorem empty_subset_processes_all_cex :
    hybrid_retrieve_rerank collabC6cex 100 (some []) [("q1", "t")] ⟨[]⟩
      = (.ok [("q1", [("a", 1)])], ⟨[]⟩, 2)
    ∧ hybrid_retrieve_rerank collabC6cex 100 (some []) [("q1", "t")] ⟨[]⟩
        ≠ (.ok [], ⟨[]⟩, 0) := by
  constructor
  · decide
  · decide

/-- C6 (witness): the amended theorem applied to a nonempty subset
disjoint from the single loaded query. -/
theorem hybrid_retrieve_rerank_subset_witness :
    (hybrid_retrieve_rerank collabC6w 100 (some ["x"]) [("q1", "t")] ⟨[]⟩
      = hybrid_retrieve_rerank collabC6w 100 (some ["x"])
          ([("q1", "t")].filter (fun p => ["x"].contains p.1)) ⟨[]⟩)
    ∧ ((∀ p ∈ [("q1", "t")], p.1 ∉ ["x"]) →
        hybrid_retrieve_rerank collabC6w 100 (some ["x"]) [("q1", "t")] ⟨[]⟩
          = (.ok [], ⟨[]⟩, 0)) :=
  hybrid_retrieve_rerank_subset collabC6w 100 ["x"] (by simp) [("q1", "t")] ⟨[]⟩

/-- C7 (amended): `hybrid_retrieve_rerank` performs no validation of
`top_k`: its behaviour depends on `top_k` only through the search
collaborators it forwards it to — two collaborator bundles that agree on
every search issued at that `top_k` produce identical batches, for any
`top_k`, including non-positive ones. -/
theorem hybrid_retrieve_rerank_topk_forwarded (c c' : Collab) (tk : Int)
    (hkw : c.kw = c'.kw)
    (hf : ∀ s, c.fts s tk = c'.fts s tk)
    (hh : ∀ s, c.hybrid s tk = c'.hybrid s tk)
    (hv : ∀ s, c.vector s tk = c'.vector s tk) :
    ∀ (qids : Option (List String)) (qs : List (String × String)) (cache : KwCache),
      hybrid_retrieve_rerank c tk qids qs cache
        = hybrid_retrieve_rerank c' tk qids qs cache := by
  have hproc : ∀ (cache : KwCache) (q : String),
      processQuery c cache tk q = processQuery c' cache tk q := by
    intro cache q
    unfold processQuery ftsStage
    simp only [hkw, hf, hh, hv]
  intro qids qs
  induction qs with
  | nil => intro cache; rfl
  | cons p rest ih =>
    intro cache
    rcases p with ⟨qid0, qtext0⟩
    cases hs : skipQuery qids qid0 with
    | true =>
      rw [hrr_cons_skip c tk qids qid0 qtext0 rest cache hs,
        hrr_cons_skip c' tk qids qid0 qtext0 rest cache hs]
      exact ih cache
    | false =>
      rw [hrr_cons_no_skip c tk qids qid0 qtext0 rest cache hs,
        hrr_cons_no_skip c' tk qids qid0 qtext0 rest cache hs,
        hproc cache qtext0]
      rcases hpq : processQuery c' cache tk qtext0 with ⟨pres, cacheA, n1⟩
      cases pres with
      | error e => rfl
      | ok m0 =>
        show (match hybrid_retrieve_rerank c tk qids rest cacheA with
            | (res, cache3, n2) =>
              (Except.map (fun x => (qid0, m0) :: x) res, cache3, n1 + n2))
          = (match hybrid_retrieve_rerank c' tk qids rest cacheA with
            | (res, cache3, n2) =>
              (Except.map (fun x => (qid0, m0) :: x) res, cache3, n1 + n2))
        rw [ih cacheA]

/-- C7 (counterexample): a call with `top_k = 0` is not rejected with
any error: there is no `top_k` validation in the source, the
non-positive limit is handed to the search collaborator and the call
succeeds with a nonempty result. -/
theorem topk_zero_not_rejected_cex :
    hybrid_retrieve_rerank collabC7cex 0 none [("q1", "t")] ⟨[]⟩
      = (.ok [("q1", [("a", 1)])], ⟨[]⟩, 2) := by decide

/-- C7 (witness): the amended theorem applied at `top_k = 0` to two
collaborators that differ away from `top_k = 0`. -/
theorem hybrid_retrieve_rerank_topk_forwarded_witness :
    hybrid_retrieve_rerank collabC7w 0 none [("q1", "t")] ⟨[]⟩
      = hybrid_retrieve_rerank collabC7w2 0 none [("q1", "t")] ⟨[]⟩ :=
  hybrid_retrieve_rerank_topk_forwarded collabC7w collabC7w2 0 rfl
    (fun _ => rfl) (fun _ => rfl) (fun _ => rfl) none [("q1", "t")] ⟨[]⟩

/-- C1: the input resolution of `generate()` (lines 475-484),
transcribed literally, is inverted.  With no stored rerank result the
conditional selects `rerank_results` — i.e. `None` — and the assertion
fails even though a retrieve result is available; with only a rerank
result stored it selects the absent `retrieve_results` and fails too;
and with both present it uses the *retrieve* result.  This contradicts
the method's own docstring and assertion message ("Neither
rerank_results nor retrieve_results are available"), so the spec's
prefer-rerank-else-retrieve resolution is the intended behaviour and
the source line is the defect. -/
theorem generate_input_resolution_inverted :
    generate_input_resolution none (some [("q1", [("d1", (1 : Rat))])])
        = .error .assertionError
    ∧ generate_input_resolution (some [("q1", [("d1", (1 : Rat))])]) none
        = .error .assertionError
    ∧ generate_input_resolution (some [("q1", [("d1", (1 : Rat))])])
        (some [("q2", [("d2", (2 : Rat))])])
        = .ok [("q2", [("d2", (2 : Rat))])] :=
  ⟨rfl, rfl, rfl⟩

theorem except_bind_error {α β : Type} (e : PyErr) (f : α → Except PyErr β) :
    ((Except.error e : Except PyErr α) >>= f) = .error e := rfl

theorem except_bind_ok {α β : Type} (a : α) (f : α → Except PyErr β) :
    ((Except.ok a : Except PyErr α) >>= f) = f a := rfl

/-- The second component of `evaluate`, with the let-bindings spelled
out. -/
theorem evaluate_snd (scorer : Scorer) (qrels : Qrels) (results : RankingResult)
    (ks : List Int) (flag : Bool) :
    (evaluate scorer qrels results ks flag).2
      = (do
          let a ← aggregate_metric scorer QuadScore.ndcg "NDCG@"
            (scored_queries qrels results flag) ks
          let b ← aggregate_metric scorer QuadScore.mapv "MAP@"
            (scored_queries qrels results flag) ks
          let r ← aggregate_metric scorer QuadScore.recl "Recall@"
            (scored_queries qrels results flag) ks
          let p ← aggregate_metric scorer QuadScore.prec "P@"
            (scored_queries qrels results flag) ks
          return ⟨a, b, r, p⟩) := rfl

/-- C4 (amended): when zero queries remain after the self-match removal
and the restriction to queries present in both `qrels` and `results`,
and at least one cutoff is requested, the `evaluate` call fails — but by
raising `ZeroDivisionError` from the `/ len(scores)` mean computation
itself; the source has no dedicated empty-evaluation-set guard. -/
theorem evaluate_zero_division_on_empty_set (scorer : Scorer) (qrels : Qrels)
    (results : RankingResult) (ks : List Int) (flag : Bool)
    (hempty : scored_queries qrels results flag = []) (hks : ks ≠ []) :
    (evaluate scorer qrels results ks flag).2 = .error .zeroDivisionError := by
  rw [evaluate_snd]
  cases ks with
  | nil => exact absurd rfl hks
  | cons k t =>
    have h1 : aggregate_metric scorer QuadScore.ndcg "NDCG@"
        (scored_queries qrels results flag) (k :: t) = .error .zeroDivisionError := by
      unfold aggregate_metric mapExcept
      rw [hempty]
      rfl
    rw [h1, except_bind_error]

/-- C4 (counterexample): with `qrels` and `results` sharing no query,
`evaluate` reaches `ndcg[...] / len(scores)` with `len(scores) = 0` and
fails with `ZeroDivisionError` — the failure *is* the division by zero;
no `EmptyEvaluationSet`-style guard precedes it. -/
theorem evaluate_empty_set_divzero_cex :
    (evaluate constScorer [("q1", [("d1", 1)])] [("q2", [("d1", (1 : Rat))])]
        [10] true).2 = .error .zeroDivisionError := by decide

/-- C4 (witness): the amended theorem applied to disjoint inputs. -/
theorem evaluate_zero_division_on_empty_set_witness :
    (scored_queries [("q1", [("d1", 1)])] [("q2", [("d1", (1 : Rat))])] true = [])
    ∧ (([10] : List Int) ≠ [])
    ∧ (evaluate constScorer [("q1", [("d1", 1)])] [("q2", [("d1", (1 : Rat))])]
        [10] true).2 = .error .zeroDivisionError :=
  ⟨by decide, by decide,
    evaluate_zero_division_on_empty_set constScorer [("q1", [("d1", 1)])]
      [("q2", [("d1", (1 : Rat))])] [10] true (by decide) (by decide)⟩

theorem mapExcept_ok_mem {α β : Type} (f : α → Except PyErr β) :
    ∀ (l : List α) (res : List β), mapExcept f l = .ok res →
      ∀ a ∈ l, ∃ b, f a = .ok b ∧ b ∈ res := by
  intro l
  induction l with
  | nil => intro res h a ha; simp at ha
  | cons x t ih =>
    intro res h a ha
    unfold mapExcept at h
    cases hfx : f x with
    | error e =>
      rw [hfx] at h
      exact absurd h (by simp)
    | ok b =>
      rw [hfx] at h
      have h2 : (match mapExcept f t with
          | .error e => (.error e : Except PyErr (List β))
          | .ok bs => .ok (b :: bs)) = .ok res := h
      cases hrest : mapExcept f t with
      | error e =>
        rw [hrest] at h2
        exact absurd h2 (by simp)
      | ok bs =>
        rw [hrest] at h2
        injection h2 with h2
        rcases List.mem_cons.1 ha with ha | ha
        · refine ⟨b, ?_, ?_⟩
          · rw [ha]
            exact hfx
          · rw [← h2]
            exact List.mem_cons_self _ _
        · rcases ih bs hrest a ha with ⟨b', hb', hmem⟩
          refine ⟨b', hb', ?_⟩
          rw [← h2]
          exact List.mem_cons_of_mem _ hmem

theorem remove_identical_ids_append (results : RankingResult)
    (x : String × List (String × Rat)) :
    remove_identical_ids (results ++ [x])
      = remove_identical_ids results
        ++ [(x.1, x.2.filter (fun d => !(d.1 == x.1)))] := by
  unfold remove_identical_ids
  rw [List.map_append]
  rfl

theorem filter_results_append_absent (qrels : Qrels) (results : RankingResult)
    (q0 : String) (rels0 : List (String × Rat))
    (h0 : (qrels.map Prod.fst).contains q0 = false) :
    filter_results qrels (results ++ [(q0, rels0)]) = filter_results qrels results := by
  unfold filter_results
  rw [List.filter_append]
  have hsingle : List.filter (fun p => (qrels.map Prod.fst).contains p.1)
      [(q0, rels0)] = [] := by
    simp only [List.filter_cons, List.filter_nil]
    rw [h0]
    rfl
  rw [hsingle, List.append_nil]

/-- One aggregated metric dict of a successful `evaluate`: each
requested cutoff contributes the rounded arithmetic mean of the
per-query scores over the scored queries. -/
theorem aggregate_metric_ok_mem (scorer : Scorer) (f : QuadScore → Rat)
    (label : String) (scored : RankingResult) (ks : List Int)
    (a : List (String × Rat)) (k : Int)
    (h : aggregate_metric scorer f label scored ks = .ok a) (hk : k ∈ ks) :
    (label ++ toString k,
      round5 ((scored.map fun p => f (scorer p.1 p.2 k)).sum
        / (scored.length : Rat))) ∈ a := by
  have h' : mapExcept (metric_line scorer f label scored) ks = .ok a := h
  rcases mapExcept_ok_mem _ ks a h' k hk with ⟨y, hy, hymem⟩
  unfold metric_line at hy
  split at hy
  · exact absurd hy (by simp)
  · injection hy with hy
    rw [← hy] at hymem
    exact hymem

/-- C8: only queries present in both `qrels` and `results` contribute
to the metrics: appending to `results` a query absent from `qrels`
leaves every aggregated metric unchanged (the query is excluded
entirely, contributing no zero to any average), and each of the four
aggregated metric entries — NDCG@k, MAP@k, Recall@k and P@k — is the
arithmetic mean of the per-query scores over exactly the scored
(shared) queries, rounded to 5 decimal places. -/
theorem evaluate_mean_over_scored_queries (scorer : Scorer) (qrels : Qrels)
    (results : RankingResult) (ks : List Int) (q0 : String)
    (rels0 : List (String × Rat))
    (h0 : (qrels.map Prod.fst).contains q0 = false) :
    (evaluate scorer qrels (results ++ [(q0, rels0)]) ks true).2
        = (evaluate scorer qrels results ks true).2
    ∧ ∀ rep, (evaluate scorer qrels results ks true).2 = .ok rep →
        ∀ k ∈ ks,
          ("NDCG@" ++ toString k,
            round5 (((scored_queries qrels results true).map
                (fun p => (scorer p.1 p.2 k).ndcg)).sum
              / ((scored_queries qrels results true).length : Rat)))
            ∈ rep.ndcg
          ∧ ("MAP@" ++ toString k,
            round5 (((scored_queries qrels results true).map
                (fun p => (scorer p.1 p.2 k).mapv)).sum
              / ((scored_queries qrels results true).length : Rat)))
            ∈ rep.mapv
          ∧ ("Recall@" ++ toString k,
            round5 (((scored_queries qrels results true).map
                (fun p => (scorer p.1 p.2 k).recl)).sum
              / ((scored_queries qrels results true).length : Rat)))
            ∈ rep.recl
          ∧ ("P@" ++ toString k,
            round5 (((scored_queries qrels results true).map
                (fun p => (scorer p.1 p.2 k).prec)).sum
              / ((scored_queries qrels results true).length : Rat)))
            ∈ rep.prec := by
  have hsc : scored_queries qrels (results ++ [(q0, rels0)]) true
      = scored_queries qrels results true := by
    show filter_results qrels (remove_identical_ids (results ++ [(q0, rels0)]))
      = filter_results qrels (remove_identical_ids results)
    rw [remove_identical_ids_append]
    exact filter_results_append_absent qrels (remove_identical_ids results) q0 _ h0
  constructor
  · rw [evaluate_snd, evaluate_snd]
    simp only [hsc]
  · intro rep hrep k hk
    rw [evaluate_snd] at hrep
    cases h1 : aggregate_metric scorer QuadScore.ndcg "NDCG@"
        (scored_queries qrels results true) ks with
    | error e =>
      rw [h1, except_bind_error] at hrep
      exact absurd hrep (by simp)
    | ok a =>
      rw [h1, except_bind_ok] at hrep
      cases h2 : aggregate_metric scorer QuadScore.mapv "MAP@"
          (scored_queries qrels results true) ks with
      | error e =>
        rw [h2, except_bind_error] at hrep
        exact absurd hrep (by simp)
      | ok b =>
        rw [h2, except_bind_ok] at hrep
        cases h3 : aggregate_metric scorer QuadScore.recl "Recall@"
            (scored_queries qrels results true) ks with
        | error e =>
          rw [h3, except_bind_error] at hrep
          exact absurd hrep (by simp)
        | ok r =>
          rw [h3, except_bind_ok] at hrep
          cases h4 : aggregate_metric scorer QuadScore.prec "P@"
              (scored_queries qrels results true) ks with
          | error e =>
            rw [h4, except_bind_error] at hrep
            exact absurd hrep (by simp)
          | ok p =>
            rw [h4, except_bind_ok] at hrep
            have hrep2 : (Except.ok (⟨a, b, r, p⟩ : MetricReport)
                : Except PyErr MetricReport) = .ok rep := hrep
            injection hrep2 with hrep3
            rw [← hrep3]
            exact ⟨aggregate_metric_ok_mem scorer QuadScore.ndcg "NDCG@" _ ks a k h1 hk,
              aggregate_metric_ok_mem scorer QuadScore.mapv "MAP@" _ ks b k h2 hk,
              aggregate_metric_ok_mem scorer QuadScore.recl "Recall@" _ ks r k h3 hk,
              aggregate_metric_ok_mem scorer QuadScore.prec "P@" _ ks p k h4 hk⟩

/-- C8 (witness): the theorem applied to a one-shared-query instance
with an extra query absent from qrels. -/
theorem evaluate_mean_over_scored_queries_witness :
    ((([("q1", [("d1", 1)])] : Qrels).map Prod.fst).contains "q9" = false)
    ∧ ((evaluate constScorer [("q1", [("d1", 1)])]
          ([("q1", [("d1", (1 : Rat))])] ++ [("q9", [("d2", (3 : Rat))])]) [10] true).2
        = (evaluate constScorer [("q1", [("d1", 1)])]
            [("q1", [("d1", (1 : Rat))])] [10] true).2
      ∧ ∀ rep, (evaluate constScorer [("q1", [("d1", 1)])]
            [("q1", [("d1", (1 : Rat))])] [10] true).2 = .ok rep →
          ∀ k ∈ ([10] : List Int),
            ("NDCG@" ++ toString k,
              round5 (((scored_queries [("q1", [("d1", 1)])]
                  [("q1", [("d1", (1 : Rat))])] true).map
                  (fun p => (constScorer p.1 p.2 k).ndcg)).sum
                / ((scored_queries [("q1", [("d1", 1)])]
                    [("q1", [("d1", (1 : Rat))])] true).length : Rat)))
              ∈ rep.ndcg
            ∧ ("MAP@" ++ toString k,
              round5 (((scored_queries [("q1", [("d1", 1)])]
                  [("q1", [("d1", (1 : Rat))])] true).map
                  (fun p => (constScorer p.1 p.2 k).mapv)).sum
                / ((scored_queries [("q1", [("d1", 1)])]
                    [("q1", [("d1", (1 : Rat))])] true).length : Rat)))
              ∈ rep.mapv
            ∧ ("Recall@" ++ toString k,
              round5 (((scored_queries [("q1", [("d1", 1)])]
                  [("q1", [("d1", (1 : Rat))])] true).map
                  (fun p => (constScorer p.1 p.2 k).recl)).sum
                / ((scored_queries [("q1", [("d1", 1)])]
                    [("q1", [("d1", (1 : Rat))])] true).length : Rat)))
              ∈ rep.recl
            ∧ ("P@" ++ toString k,
              round5 (((scored_queries [("q1", [("d1", 1)])]
                  [("q1", [("d1", (1 : Rat))])] true).map
                  (fun p => (constScorer p.1 p.2 k).prec)).sum
                / ((scored_queries [("q1", [("d1", 1)])]
                    [("q1", [("d1", (1 : Rat))])] true).length : Rat)))
              ∈ rep.prec) :=
  ⟨by decide,
    evaluate_mean_over_scored_queries constScorer [("q1", [("d1", 1)])]
      [("q1", [("d1", (1 : Rat))])] [10] "q9" [("d2", (3 : Rat))] (by decide)⟩

/-- C9: two calls of the memoized `keyword_extraction_expansion` with
identical query text (and cutoff): if the first call succeeds with
result `r`, the immediate second call returns the same `r` and does not
invoke the external OpenAI collaborator again — the `lru_cache` keyed by
the literal call arguments serves it. -/
theorem keyword_expansion_memoized (llm : String → Option String)
    (cache : KwCache) (query : String) (tk : Int) (r : List String)
    (cache2 : KwCache) (called : Bool)
    (h : keyword_extraction_expansion llm cache query tk = (.ok r, cache2, called)) :
    (keyword_extraction_expansion llm cache2 query tk).1 = .ok r
    ∧ (keyword_extraction_expansion llm cache2 query tk).2.2 = false := by
  have hlook : cacheLookup cache2 (query, tk) = some r := by
    unfold keyword_extraction_expansion at h
    cases hc : cacheLookup cache (query, tk) with
    | some v =>
      rw [hc] at h
      injection h with h1 h2
      injection h2 with h2 h3
      injection h1 with h1
      rw [← h2]
      unfold cachePromote
      unfold cacheLookup at hc
      cases hf : cache.entries.find? (fun e => decide (e.1 = (query, tk))) with
      | none =>
        rw [hf] at hc
        simp at hc
      | some e =>
        rw [hf] at hc
        unfold cacheLookup
        have hpe0 := List.find?_some hf
        have hpe : decide (e.1 = (query, tk)) = true := hpe0
        have hfind : ((e :: cache.entries.filter
            (fun e2 => !decide (e2.1 = (query, tk))))).find?
              (fun e2 => decide (e2.1 = (query, tk))) = some e :=
          List.find?_cons_of_pos _ hpe
        show ((e :: cache.entries.filter
            (fun e2 => !decide (e2.1 = (query, tk)))).find?
              (fun e2 => decide (e2.1 = (query, tk)))).map Prod.snd = some r
        rw [hfind]
        simp only [Option.map_some'] at hc ⊢
        rw [hc, h1]
    | none =>
      rw [hc] at h
      cases hl : llm query with
      | none =>
        rw [hl] at h
        exact absurd h (by simp)
      | some resp =>
        rw [hl] at h
        injection h with h1 h2
        injection h2 with h2 h3
        injection h1 with h1
        rw [← h2]
        unfold cacheLookup
        show (((((query, tk), pySplitCommaSpace resp) :: cache.entries).take
            lru_maxsize).find? (fun e => decide (e.1 = (query, tk)))).map Prod.snd
          = some r
        rw [show lru_maxsize = 999 + 1 from rfl, List.take_succ_cons]
        have hfind : ((((query, tk), pySplitCommaSpace resp)
            :: cache.entries.take 999)).find?
              (fun e => decide (e.1 = (query, tk)))
            = some ((query, tk), pySplitCommaSpace resp) :=
          List.find?_cons_of_pos _ (by simp)
        rw [hfind]
        simp only [Option.map_some']
        rw [h1]
  constructor
  · unfold keyword_extraction_expansion
    rw [hlook]
  · unfold keyword_extraction_expansion
    rw [hlook]

/-- C9 (witness): a concrete first call populates the cache; the
theorem gives the memoized second call. -/
theorem keyword_expansion_memoized_witness :
    ((keyword_extraction_expansion llmC9
        ⟨[(("q", 100), ["alpha", "beta"])]⟩ "q" 100).1 = .ok ["alpha", "beta"])
    ∧ ((keyword_extraction_expansion llmC9
        ⟨[(("q", 100), ["alpha", "beta"])]⟩ "q" 100).2.2 = false) :=
  keyword_expansion_memoized llmC9 ⟨[]⟩ "q" 100 ["alpha", "beta"]
    ⟨[(("q", 100), ["alpha", "beta"])]⟩ true (by decide)

theorem find?_key_nodup (results : RankingResult) (q : String)
    (rels : List (String × Rat)) (hnd : (results.map Prod.fst).Nodup)
    (hq : (q, rels) ∈ results) :
    results.find? (fun p => p.1 == q) = some (q, rels) := by
  induction results with
  | nil => simp at hq
  | cons x t ih =>
    rcases x with ⟨a, b⟩
    simp only [List.map_cons, List.nodup_cons] at hnd
    by_cases hax : (a == q : Bool)
    · have ha : a = q := eq_of_beq hax
      have hx : (q, rels) = (a, b) := by
        rcases List.mem_cons.1 hq with h | h
        · exact h
        · exfalso
          apply hnd.1
          rw [ha]
          exact List.mem_map_of_mem Prod.fst h
      have hpos : ((a, b) :: t).find? (fun p => p.1 == q) = some (a, b) :=
        List.find?_cons_of_pos t hax
      rw [hpos, ← hx]
    · have hneg : ((a, b) :: t).find? (fun p => p.1 == q)
          = t.find? (fun p => p.1 == q) :=
        List.find?_cons_of_neg t (by simpa using hax)
      rw [hneg]
      apply ih hnd.2
      rcases List.mem_cons.1 hq with h | h
      · exfalso
        have h1 : q = a := congrArg Prod.fst h
        exact hax (by rw [← h1]; exact beq_self_eq_true q)
      · exact h

theorem find?_map_remove (q : String) :
    ∀ results : RankingResult,
      (results.map (fun p => (p.1, p.2.filter (fun d => !(d.1 == p.1))))).find?
          (fun p => p.1 == q)
        = (results.find? (fun p => p.1 == q)).map
            (fun p => (p.1, p.2.filter (fun d => !(d.1 == p.1)))) := by
  intro results
  induction results with
  | nil => simp [List.find?]
  | cons x t ih =>
    by_cases hx : (x.1 == q : Bool)
    · have h1 : (x :: t).find? (fun p => p.1 == q) = some x :=
        List.find?_cons_of_pos t hx
      have h2 : ((x :: t).map (fun p => (p.1, p.2.filter
          (fun d => !(d.1 == p.1))))).find? (fun p => p.1 == q)
          = some (x.1, x.2.filter (fun d => !(d.1 == x.1))) := by
        show ((x.1, x.2.filter (fun d => !(d.1 == x.1)))
            :: t.map (fun p => (p.1, p.2.filter (fun d => !(d.1 == p.1))))).find?
              (fun p => p.1 == q) = _
        exact List.find?_cons_of_pos _ (by simpa using hx)
      rw [h1, h2]
      rfl
    · have h1 : (x :: t).find? (fun p => p.1 == q)
          = t.find? (fun p => p.1 == q) :=
        List.find?_cons_of_neg t (by simpa using hx)
      have h2 : ((x :: t).map (fun p => (p.1, p.2.filter
          (fun d => !(d.1 == p.1))))).find? (fun p => p.1 == q)
          = (t.map (fun p => (p.1, p.2.filter (fun d => !(d.1 == p.1))))).find?
              (fun p => p.1 == q) := by
        show ((x.1, x.2.filter (fun d => !(d.1 == x.1)))
            :: t.map (fun p => (p.1, p.2.filter (fun d => !(d.1 == p.1))))).find?
              (fun p => p.1 == q) = _
        exact List.find?_cons_of_neg _ (by simpa using hx)
      rw [h1, h2, ih]

/-- C10: `evaluate` with `ignore_identical_ids = true` mutates the
caller's `results` dict in place: a query holding an entry whose
document id equals the query id comes back with that entry popped, and
the mapping observed after the call differs from the one passed in. -/
theorem evaluate_mutates_caller_results (scorer : Scorer) (qrels : Qrels)
    (results : RankingResult) (ks : List Int) (q : String)
    (rels : List (String × Rat)) (v : Rat)
    (hnd : (results.map Prod.fst).Nodup) (hq : (q, rels) ∈ results)
    (hv : (q, v) ∈ rels) :
    dictFind q ((evaluate scorer qrels results ks true).1)
        = some (rels.filter (fun d => !(d.1 == q)))
    ∧ (q, v) ∉ rels.filter (fun d => !(d.1 == q))
    ∧ (evaluate scorer qrels results ks true).1 ≠ results := by
  have hfst : (evaluate scorer qrels results ks true).1
      = remove_identical_ids results := rfl
  have hfilter_ne : (q, v) ∉ rels.filter (fun d => !(d.1 == q)) := by
    intro hmem
    have hpred := (List.mem_filter.1 hmem).2
    simp at hpred
  have hfind : dictFind q (remove_identical_ids results)
      = some (rels.filter (fun d => !(d.1 == q))) := by
    unfold dictFind remove_identical_ids
    rw [find?_map_remove, find?_key_nodup results q rels hnd hq]
    rfl
  refine ⟨by rw [hfst]; exact hfind, hfilter_ne, ?_⟩
  intro heq
  have h1 : dictFind q results = some rels := by
    unfold dictFind
    rw [find?_key_nodup results q rels hnd hq]
    rfl
  rw [hfst] at heq
  rw [heq, h1] at hfind
  injection hfind with h2
  rw [h2] at hv
  exact hfilter_ne hv

/-- C10 (witness): a concrete results dict holding a self-match entry
for `q1`. -/
theorem evaluate_mutates_caller_results_witness :
    dictFind "q1" ((evaluate constScorer [("q1", [("d1", 1)])]
        [("q1", [("d1", (1 : Rat)), ("q1", 2)])] [10] true).1)
      = some ([("d1", (1 : Rat)), ("q1", 2)].filter (fun d => !(d.1 == "q1")))
    ∧ ("q1", (2 : Rat)) ∉ [("d1", (1 : Rat)), ("q1", 2)].filter
        (fun d => !(d.1 == "q1"))
    ∧ (evaluate constScorer [("q1", [("d1", 1)])]
        [("q1", [("d1", (1 : Rat)), ("q1", 2)])] [10] true).1
      ≠ [("q1", [("d1", (1 : Rat)), ("q1", 2)])] :=
  evaluate_mutates_caller_results constScorer [("q1", [("d1", 1)])]
    [("q1", [("d1", (1 : Rat)), ("q1", 2)])] [10] "q1"
    [("d1", (1 : Rat)), ("q1", 2)] 2 (by decide) (by decide) (by decide)

end FinRAG
